import Mathlib

/-!
Verification of the hierarchical key and query encoding subsystem of the
gorilla experimental appengine datastore client.

Embedded source files:
* `src/dev/exp/appengine/datastore/key.go` — `Key`, `Key.valid`, `Key.Eq`,
  `Key.Encode`, `DecodeKey`, `keyToProto`, `protoToKey`, `multiValid`.
* `src/unnamed/part_001` (second datastore key implementation) — `Key.Equal`.
* `src/exp/appengine/datastore/query.go` — `Query`, `QueryOptions`,
  `queryFilter`, `queryOrder`, their `toProto` conversions, `validInt32`.

Go machine integers (`int64`, `int`) are embedded as `Int`; the only
operations performed on them by the embedded code are comparisons and
equality tests, so no wrap-around arithmetic arises.  Go `*Key` is embedded
as `Option Key`; Go slices (with their capacity/aliasing semantics, which
matter for the builder methods) are embedded explicitly in a heap model.
External library routines that are not part of this repository
(the protobuf marshaller and the base64 codec of the Go standard library)
are modelled from the spec, as marked on their definitions.
-/

-- ---------------------------------------------------------------------------
-- String helpers mirroring the Go standard library functions used in src
-- ---------------------------------------------------------------------------

/-- strings.TrimSpace (both-ends whitespace trim, as used on ASCII input). -/
def goTrimSpace (s : String) : String :=
  ⟨((s.data.dropWhile Char.isWhitespace).reverse.dropWhile Char.isWhitespace).reverse⟩

/-- strings.TrimRight with an explicit cutset: drops every trailing
    character that is a member of `cut`. -/
def goTrimRightAny (s : String) (cut : List Char) : String :=
  ⟨(s.data.reverse.dropWhile (fun c => cut.contains c)).reverse⟩

-- ---------------------------------------------------------------------------
-- Errors (os.Error values produced in src, as an inductive carrying the data
-- interpolated into the Go error message) and ErrMulti
-- ---------------------------------------------------------------------------

/-- The distinct error values produced by the embedded code.  Constructors
    carry the data that the Go code interpolates into the error text
    (for example the offending operator and filter of
    "datastore: invalid operator %q in filter %q"). -/
inductive DSError where
  /-- "datastore: empty query kind" -/
  | emptyQueryKind
  /-- "datastore: invalid query filter: " ++ filter -/
  | invalidQueryFilter (filter : String)
  /-- "datastore: empty query filter property" -/
  | emptyQueryFilterProperty
  /-- "datastore: invalid operator %q in filter %q" -/
  | invalidOperator (operator : String) (filter : String)
  /-- "datastore: bad query filter value type: %q" -/
  | badValueType (typeName : String)
  /-- "datastore: empty query order property" -/
  | emptyQueryOrderProperty
  /-- "datastore: negative value for " ++ name -/
  | negativeValue (name : String)
  /-- "datastore: value overflow for " ++ name -/
  | overflowValue (name : String)
  /-- ErrInvalidKey -/
  | invalidKey
  /-- base64.URLEncoding.DecodeString failure -/
  | base64DecodeError
  /-- proto.Unmarshal failure -/
  | protoUnmarshalError
deriving DecidableEq, Repr

/-- ErrMulti: a slice of errors; entries may be nil (`none`), as in
    `multiValid`, which allocates one slot per input key. -/
abbrev ErrMulti : Type := List (Option DSError)

-- ---------------------------------------------------------------------------
-- Key (src/dev/exp/appengine/datastore/key.go, lines 71-79)
-- ---------------------------------------------------------------------------

/-- Go `type Key struct`: appID, namespace, parent (*Key, embedded as
    `Option Key`), kind, stringID, intID.  The Go field `namespace` is named
    `nspace` here because `namespace` is a Lean keyword. -/
inductive Key where
  | mk (appID : String) (nspace : String) (kind : String) (stringID : String)
       (intID : Int) (parent : Option Key)

def Key.appID : Key → String
  | .mk a _ _ _ _ _ => a

def Key.nspace : Key → String
  | .mk _ n _ _ _ _ => n

def Key.kind : Key → String
  | .mk _ _ k _ _ _ => k

def Key.stringID : Key → String
  | .mk _ _ _ s _ _ => s

def Key.intID : Key → Int
  | .mk _ _ _ _ i _ => i

def Key.parent : Key → Option Key
  | .mk _ _ _ _ _ p => p

/-- Key.Incomplete: `k.stringID == "" && k.intID == 0`. -/
def Key.Incomplete (k : Key) : Bool :=
  k.stringID == "" && k.intID == 0

/-- The per-node and parent-link checks of the loop body of `Key.valid`,
    applied down the whole chain.  The Go loop visits every node `k` of the
    chain and checks: non-empty kind and appID, not both ids set, and if a
    parent exists that it is complete and shares appID and namespace. -/
def Key.validChain : Key → Bool
  | .mk a n kd sid iid p =>
    !(kd == "") && !(a == "") && !(sid != "" && iid != 0) &&
    (match p with
     | none => true
     | some q =>
       !q.Incomplete && q.appID == a && q.nspace == n && q.validChain)

/-- Key.valid on a possibly-nil `*Key` receiver: Go returns false for nil. -/
def Key.valid : Option Key → Bool
  | none => false
  | some k => k.validChain

/-- The body of the Key.Eq loop (src/dev/exp key.go, lines 129-137) on
    two non-nil keys: compare the nodes' fields, then continue with the
    parents; the loop ends with the nil test `k == o`. -/
def Key.eqChain : Key → Key → Bool
  | .mk a n kd s i p, .mk a2 n2 kd2 s2 i2 p2 =>
    if kd != kd2 || s != s2 || i != i2 || n != n2 || a != a2 then
      false
    else
      match p, p2 with
      | none, none => true
      | some q, some q2 => q.eqChain q2
      | _, _ => false

/-- Key.Eq (src/dev/exp key.go, lines 129-137) on possibly-nil
    receivers: the loop body for two non-nil keys, otherwise the final
    pointer comparison `k == o`. -/
def Key.Eq (k o : Option Key) : Bool :=
  match k, o with
  | some k, some o => k.eqChain o
  | none, none => true
  | _, _ => false

/-- The body of the Key.Equal loop (src/unnamed/part_001, lines 96-104):
    same comparisons with appID written before namespace. -/
def Key.equalChain : Key → Key → Bool
  | .mk a n kd s i p, .mk a2 n2 kd2 s2 i2 p2 =>
    if kd != kd2 || s != s2 || i != i2 || a != a2 || n != n2 then
      false
    else
      match p, p2 with
      | none, none => true
      | some q, some q2 => q.equalChain q2
      | _, _ => false

/-- Key.Equal (src/unnamed/part_001, lines 96-104). -/
def Key.Equal (k o : Option Key) : Bool :=
  match k, o with
  | some k, some o => k.equalChain o
  | none, none => true
  | _, _ => false

-- ---------------------------------------------------------------------------
-- Flattening a key chain (for equality reasoning and DecidableEq)
-- ---------------------------------------------------------------------------

/-- The observable fields of one node of a key chain. -/
structure KeyFields where
  kind : String
  stringID : String
  intID : Int
  appID : String
  nspace : String
deriving DecidableEq, Repr

/-- The leaf-to-root list of node fields of a key chain. -/
def Key.chainList : Key → List KeyFields
  | .mk a n k s i p =>
    ⟨k, s, i, a, n⟩ :: (match p with | none => [] | some q => q.chainList)

/-- Rebuild a key from a leaf-to-root field list (inverse of chainList). -/
def keyFromChain : List KeyFields → Option Key
  | [] => none
  | f :: rest => some (.mk f.appID f.nspace f.kind f.stringID f.intID (keyFromChain rest))

theorem keyFromChain_chainList : (k : Key) → keyFromChain k.chainList = some k
  | .mk a n kd s i none => by simp [Key.chainList, keyFromChain]
  | .mk a n kd s i (some q) => by
    simp [Key.chainList, keyFromChain, keyFromChain_chainList q]

theorem key_eq_iff_chain (a b : Key) : a = b ↔ a.chainList = b.chainList := by
  constructor
  · intro h
    rw [h]
  · intro h
    have ha := keyFromChain_chainList a
    rw [h, keyFromChain_chainList b] at ha
    exact (Option.some.inj ha).symm

instance : DecidableEq Key := fun a b =>
  decidable_of_iff (a.chainList = b.chainList) (key_eq_iff_chain a b).symm

-- ---------------------------------------------------------------------------
-- Wire reference message (pb.Reference / pb.Path_Element)
-- ---------------------------------------------------------------------------

/-- pb.Path_Element: optional kind (`Type`), name, id.  Optional proto
    fields are `Option`; `proto.GetString` / `proto.GetInt64` read them
    with defaults "" and 0. -/
structure PathElement where
  type : Option String
  name : Option String
  id : Option Int
deriving DecidableEq, Repr

/-- pb.Reference: optional app and namespace strings and the root-first
    element list of the path. -/
structure Reference where
  app : Option String
  nameSpace : Option String
  elements : List PathElement
deriving DecidableEq, Repr

/-- The root-first path built by the two walk loops of `keyToProto`
    (src/dev/exp key.go, lines 339-356): `Name` is set iff the node's
    stringID is non-empty, otherwise `Id` is set iff the intID is
    non-zero. -/
def keyPath : Key → List PathElement
  | .mk _ _ kd sid iid p =>
    (match p with | none => [] | some q => keyPath q) ++
    [⟨some kd,
      if sid != "" then some sid else none,
      if sid != "" then none else if iid != 0 then some iid else none⟩]

/-- keyToProto (src/dev/exp key.go, lines 334-364): `App` is always set,
    `NameSpace` only when the namespace is non-empty. -/
def keyToProto (k : Key) : Reference :=
  ⟨some k.appID,
   if k.nspace != "" then some k.nspace else none,
   keyPath k⟩

/-- The loop of `protoToKey` (src/dev/exp key.go, lines 317-329): each
    root-first element extends the chain and the extended chain is
    immediately validated; the first invalid node aborts with
    ErrInvalidKey. -/
def protoToKeyAux (appID nspace : String) :
    Option Key → List PathElement → Except DSError (Option Key)
  | k, [] => .ok k
  | k, e :: rest =>
    let k2 : Key := .mk appID nspace (e.type.getD "") (e.name.getD "") (e.id.getD 0) k
    if k2.validChain then
      protoToKeyAux appID nspace (some k2) rest
    else
      .error .invalidKey

/-- protoToKey (src/dev/exp key.go, lines 314-331).  An empty path yields
    `.ok none`: the nil key together with a nil error. -/
def protoToKey (r : Reference) : Except DSError (Option Key) :=
  protoToKeyAux (r.app.getD "") (r.nameSpace.getD "") none r.elements

-- ---------------------------------------------------------------------------
-- multiValid (src/dev/exp key.go, lines 416-434)
-- ---------------------------------------------------------------------------

/-- multiValid: nil when every key of the batch is valid; otherwise an
    ErrMulti with one slot per input key, slot i set to ErrInvalidKey
    exactly when key i is invalid. -/
def multiValid (key : List (Option Key)) : Option ErrMulti :=
  if key.all (fun k => Key.valid k) then
    none
  else
    some (key.map (fun k => if !(Key.valid k) then some DSError.invalidKey else none))

-- ---------------------------------------------------------------------------
-- Byte serialization of the wire reference message.
-- proto.Marshal / proto.Unmarshal for pb.Reference belong to the external
-- protobuf library and are not part of this repository; they are modelled
-- from the spec as an injective byte encoding with a total decoder.
-- ---------------------------------------------------------------------------

/-- Little-endian base-128 varint encoding, structurally recursive on a
    fuel argument; the fuel `n` always suffices because the value shrinks
    by a factor 128 per emitted byte. -/
def natToVarintAux : Nat → Nat → List Nat
  | 0, n => [n]
  | fuel + 1, n =>
    if n < 128 then [n] else (128 + n % 128) :: natToVarintAux fuel (n / 128)

/-- Little-endian base-128 varint encoding of a natural number; every
    produced byte is below 256. -/
def natToVarint (n : Nat) : List Nat :=
  natToVarintAux n n

/-- Varint decoder, returning the value and the remaining bytes. -/
def varintDecode : List Nat → Option (Nat × List Nat)
  | [] => none
  | b :: rest =>
    if b < 128 then
      some (b, rest)
    else
      match varintDecode rest with
      | none => none
      | some (m, rest2) => some ((b - 128) + 128 * m, rest2)

theorem varintDecode_natToVarintAux (fuel : Nat) :
    ∀ n rest, n ≤ fuel →
      varintDecode (natToVarintAux fuel n ++ rest) = some (n, rest) := by
  induction fuel with
  | zero =>
    intro n rest h
    have hn : n = 0 := by omega
    subst hn
    simp [natToVarintAux, varintDecode]
  | succ fuel ih =>
    intro n rest h
    simp only [natToVarintAux]
    split
    · rename_i hlt
      simp [varintDecode, hlt]
    · rename_i hge
      simp only [List.cons_append, varintDecode]
      rw [if_neg (by omega)]
      simp only [List.append_eq]
      rw [ih (n / 128) rest (by omega)]
      simp only [Option.some.injEq, Prod.mk.injEq]
      refine ⟨by omega, trivial⟩

theorem varintDecode_natToVarint (n : Nat) (rest : List Nat) :
    varintDecode (natToVarint n ++ rest) = some (n, rest) :=
  varintDecode_natToVarintAux n n rest (Nat.le_refl n)

theorem natToVarintAux_lt256 (fuel : Nat) :
    ∀ n, n ≤ fuel → ∀ b ∈ natToVarintAux fuel n, b < 256 := by
  induction fuel with
  | zero =>
    intro n h b hb
    simp only [natToVarintAux, List.mem_singleton] at hb
    omega
  | succ fuel ih =>
    intro n h b hb
    simp only [natToVarintAux] at hb
    split at hb
    · simp only [List.mem_singleton] at hb
      rename_i hlt
      omega
    · simp only [List.mem_cons] at hb
      rcases hb with h1 | h1
      · omega
      · exact ih (n / 128) (by omega) b h1

theorem natToVarint_lt256 (n : Nat) : ∀ b ∈ natToVarint n, b < 256 :=
  natToVarintAux_lt256 n n (Nat.le_refl n)

/-- Byte encoding of a character sequence: each code point as a varint. -/
def encodeChars : List Char → List Nat
  | [] => []
  | c :: cs => natToVarint c.toNat ++ encodeChars cs

/-- Decoder for `count` characters. -/
def decodeChars : Nat → List Nat → Option (List Char × List Nat)
  | 0, bs => some ([], bs)
  | count + 1, bs =>
    match varintDecode bs with
    | none => none
    | some (m, bs2) =>
      match decodeChars count bs2 with
      | none => none
      | some (cs, bs3) => some (Char.ofNat m :: cs, bs3)

theorem decodeChars_encodeChars (cs : List Char) (rest : List Nat) :
    decodeChars cs.length (encodeChars cs ++ rest) = some (cs, rest) := by
  induction cs generalizing rest with
  | nil => simp [encodeChars, decodeChars]
  | cons c cs ih =>
    simp only [encodeChars, List.length_cons, decodeChars, List.append_assoc,
      varintDecode_natToVarint, ih]
    simp [Char.ofNat_toNat]

/-- Byte encoding of a string: length varint, then the characters. -/
def encodeStr (s : String) : List Nat :=
  natToVarint s.data.length ++ encodeChars s.data

/-- String decoder. -/
def decodeStr (bs : List Nat) : Option (String × List Nat) :=
  match varintDecode bs with
  | none => none
  | some (n, bs2) =>
    match decodeChars n bs2 with
    | none => none
    | some (cs, bs3) => some (⟨cs⟩, bs3)

theorem decodeStr_encodeStr (s : String) (rest : List Nat) :
    decodeStr (encodeStr s ++ rest) = some (s, rest) := by
  unfold encodeStr decodeStr
  rw [List.append_assoc, varintDecode_natToVarint]
  simp only [decodeChars_encodeChars]

/-- Byte encoding of an optional string: a presence tag then the payload. -/
def encodeOptStr : Option String → List Nat
  | none => [0]
  | some s => 1 :: encodeStr s

/-- Optional-string decoder. -/
def decodeOptStr (bs : List Nat) : Option (Option String × List Nat) :=
  match bs with
  | 0 :: rest => some (none, rest)
  | 1 :: rest =>
    match decodeStr rest with
    | none => none
    | some (s, rest2) => some (some s, rest2)
  | _ => none

theorem decodeOptStr_encodeOptStr (s : Option String) (rest : List Nat) :
    decodeOptStr (encodeOptStr s ++ rest) = some (s, rest) := by
  cases s with
  | none => simp [encodeOptStr, decodeOptStr]
  | some s => simp [encodeOptStr, decodeOptStr, decodeStr_encodeStr]

/-- ZigZag mapping of a signed integer to a natural number. -/
def zigzag (i : Int) : Nat :=
  if 0 ≤ i then 2 * i.toNat else 2 * (-i).toNat - 1

/-- Inverse of the ZigZag mapping. -/
def unzigzag (n : Nat) : Int :=
  if n % 2 = 0 then ((n / 2 : Nat) : Int) else -(((n + 1) / 2 : Nat) : Int)

theorem unzigzag_zigzag (i : Int) : unzigzag (zigzag i) = i := by
  rcases le_or_lt 0 i with h | h
  · have hz : zigzag i = 2 * i.toNat := by
      unfold zigzag
      rw [if_pos h]
    rw [hz]
    unfold unzigzag
    rw [if_pos (by omega)]
    omega
  · have hz : zigzag i = 2 * (-i).toNat - 1 := by
      unfold zigzag
      rw [if_neg (by omega)]
    rw [hz]
    unfold unzigzag
    have hpos : 1 ≤ (-i).toNat := by omega
    rw [if_neg (by omega)]
    omega

/-- Byte encoding of an optional int64. -/
def encodeOptInt : Option Int → List Nat
  | none => [0]
  | some i => 1 :: natToVarint (zigzag i)

/-- Optional-int64 decoder. -/
def decodeOptInt (bs : List Nat) : Option (Option Int × List Nat) :=
  match bs with
  | 0 :: rest => some (none, rest)
  | 1 :: rest =>
    match varintDecode rest with
    | none => none
    | some (n, rest2) => some (some (unzigzag n), rest2)
  | _ => none

theorem decodeOptInt_encodeOptInt (i : Option Int) (rest : List Nat) :
    decodeOptInt (encodeOptInt i ++ rest) = some (i, rest) := by
  cases i with
  | none => simp [encodeOptInt, decodeOptInt]
  | some i => simp [encodeOptInt, decodeOptInt, varintDecode_natToVarint, unzigzag_zigzag]

/-- Byte encoding of one path element. -/
def encodePathElement (e : PathElement) : List Nat :=
  encodeOptStr e.type ++ encodeOptStr e.name ++ encodeOptInt e.id

/-- Path-element decoder. -/
def decodePathElement (bs : List Nat) : Option (PathElement × List Nat) :=
  match decodeOptStr bs with
  | none => none
  | some (t, bs2) =>
    match decodeOptStr bs2 with
    | none => none
    | some (nm, bs3) =>
      match decodeOptInt bs3 with
      | none => none
      | some (i, bs4) => some (⟨t, nm, i⟩, bs4)

theorem decodePathElement_encodePathElement (e : PathElement) (rest : List Nat) :
    decodePathElement (encodePathElement e ++ rest) = some (e, rest) := by
  unfold encodePathElement decodePathElement
  rw [List.append_assoc, List.append_assoc, decodeOptStr_encodeOptStr]
  simp only [decodeOptStr_encodeOptStr, decodeOptInt_encodeOptInt]

/-- Byte encoding of a path-element sequence. -/
def encodeElems : List PathElement → List Nat
  | [] => []
  | e :: es => encodePathElement e ++ encodeElems es

/-- Decoder for `count` path elements. -/
def decodeElems : Nat → List Nat → Option (List PathElement × List Nat)
  | 0, bs => some ([], bs)
  | count + 1, bs =>
    match decodePathElement bs with
    | none => none
    | some (e, bs2) =>
      match decodeElems count bs2 with
      | none => none
      | some (es, bs3) => some (e :: es, bs3)

theorem decodeElems_encodeElems (es : List PathElement) (rest : List Nat) :
    decodeElems es.length (encodeElems es ++ rest) = some (es, rest) := by
  induction es generalizing rest with
  | nil => simp [encodeElems, decodeElems]
  | cons e es ih =>
    simp only [encodeElems, List.length_cons, decodeElems, List.append_assoc,
      decodePathElement_encodePathElement, ih]

/-- Modelled from the spec: `proto.Marshal` applied to the wire reference
    message (`pb.Reference`), which belongs to the external protobuf
    library and is not part of this repository.  The spec describes it as
    a flat serialization of the owning app, the optional namespace, and
    the ordered root-first path elements; it is modelled as an injective
    byte encoding of exactly those fields. -/
def marshalReference (r : Reference) : List Nat :=
  encodeOptStr r.app ++ encodeOptStr r.nameSpace ++
    natToVarint r.elements.length ++ encodeElems r.elements

/-- Modelled from the spec: `proto.Unmarshal` for the wire reference
    message (external protobuf library, not part of this repository); the
    decoder matching `marshalReference`, failing on any malformed or
    trailing bytes. -/
def unmarshalReference (bs : List Nat) : Option Reference :=
  match decodeOptStr bs with
  | none => none
  | some (app, bs2) =>
    match decodeOptStr bs2 with
    | none => none
    | some (ns, bs3) =>
      match varintDecode bs3 with
      | none => none
      | some (n, bs4) =>
        match decodeElems n bs4 with
        | none => none
        | some (es, bs5) =>
          if bs5 = [] then some ⟨app, ns, es⟩ else none

theorem decodeElems_encodeElems_nil (es : List PathElement) :
    decodeElems es.length (encodeElems es) = some (es, []) := by
  have h := decodeElems_encodeElems es []
  rwa [List.append_nil] at h

theorem unmarshalReference_marshalReference (r : Reference) :
    unmarshalReference (marshalReference r) = some r := by
  obtain ⟨app, ns, es⟩ := r
  unfold marshalReference unmarshalReference
  simp only [List.append_assoc, decodeOptStr_encodeOptStr, varintDecode_natToVarint,
    decodeElems_encodeElems_nil]
  rfl

theorem encodeChars_lt256 (cs : List Char) : ∀ b ∈ encodeChars cs, b < 256 := by
  induction cs with
  | nil =>
    intro b hb
    simp [encodeChars] at hb
  | cons c cs ih =>
    intro b hb
    simp only [encodeChars, List.mem_append] at hb
    rcases hb with h | h
    · exact natToVarint_lt256 _ b h
    · exact ih b h

theorem encodeStr_lt256 (s : String) : ∀ b ∈ encodeStr s, b < 256 := by
  intro b hb
  unfold encodeStr at hb
  rw [List.mem_append] at hb
  rcases hb with h | h
  · exact natToVarint_lt256 _ b h
  · exact encodeChars_lt256 _ b h

theorem encodeOptStr_lt256 (s : Option String) : ∀ b ∈ encodeOptStr s, b < 256 := by
  cases s with
  | none =>
    intro b hb
    simp only [encodeOptStr, List.mem_singleton] at hb
    omega
  | some s =>
    intro b hb
    simp only [encodeOptStr, List.mem_cons] at hb
    rcases hb with h | h
    · omega
    · exact encodeStr_lt256 _ b h

theorem encodeOptInt_lt256 (i : Option Int) : ∀ b ∈ encodeOptInt i, b < 256 := by
  cases i with
  | none =>
    intro b hb
    simp only [encodeOptInt, List.mem_singleton] at hb
    omega
  | some i =>
    intro b hb
    simp only [encodeOptInt, List.mem_cons] at hb
    rcases hb with h | h
    · omega
    · exact natToVarint_lt256 _ b h

theorem encodeElems_lt256 (es : List PathElement) : ∀ b ∈ encodeElems es, b < 256 := by
  induction es with
  | nil =>
    intro b hb
    simp [encodeElems] at hb
  | cons e es ih =>
    intro b hb
    simp only [encodeElems, List.mem_append] at hb
    rcases hb with h | h
    · unfold encodePathElement at h
      simp only [List.mem_append] at h
      rcases h with (h2 | h2) | h2
      · exact encodeOptStr_lt256 _ b h2
      · exact encodeOptStr_lt256 _ b h2
      · exact encodeOptInt_lt256 _ b h2
    · exact ih b h

theorem marshalReference_lt256 (r : Reference) : ∀ b ∈ marshalReference r, b < 256 := by
  intro b hb
  unfold marshalReference at hb
  simp only [List.append_assoc, List.mem_append] at hb
  rcases hb with h | h | h | h
  · exact encodeOptStr_lt256 _ b h
  · exact encodeOptStr_lt256 _ b h
  · exact natToVarint_lt256 _ b h
  · exact encodeElems_lt256 _ b h

-- ---------------------------------------------------------------------------
-- URL-safe base64 (Go encoding/base64 URLEncoding, external standard
-- library).  Modelled from the spec: "URL-safe base64 of the serialized
-- wire reference message, with = padding stripped on encode and restored
-- (pad to a multiple of 4) on decode" (RFC 4648 URL alphabet).
-- ---------------------------------------------------------------------------

/-- The URL-safe base64 alphabet: A-Z, a-z, 0-9, '-', '_'. -/
def b64EncChar (i : Nat) : Char :=
  if i < 26 then Char.ofNat (65 + i)
  else if i < 52 then Char.ofNat (97 + (i - 26))
  else if i < 62 then Char.ofNat (48 + (i - 52))
  else if i = 62 then '-'
  else '_'

/-- Inverse of the alphabet map; `none` for non-alphabet characters. -/
def b64DecChar (c : Char) : Option Nat :=
  let n := c.toNat
  if 65 ≤ n && n ≤ 90 then some (n - 65)
  else if 97 ≤ n && n ≤ 122 then some (26 + (n - 97))
  else if 48 ≤ n && n ≤ 57 then some (52 + (n - 48))
  else if n = 45 then some 62
  else if n = 95 then some 63
  else none

theorem b64DecChar_encChar_fin : ∀ i : Fin 64, b64DecChar (b64EncChar i.val) = some i.val := by
  decide

theorem b64EncChar_ne_pad_fin : ∀ i : Fin 64, b64EncChar i.val ≠ '=' := by
  decide

theorem b64DecChar_encChar (i : Nat) (h : i < 64) : b64DecChar (b64EncChar i) = some i :=
  b64DecChar_encChar_fin ⟨i, h⟩

theorem b64EncChar_ne_pad (i : Nat) (h : i < 64) : b64EncChar i ≠ '=' :=
  b64EncChar_ne_pad_fin ⟨i, h⟩

/-- Base64 encoding with '=' padding, three input bytes per four output
    characters. -/
def b64Encode : List Nat → List Char
  | [] => []
  | [b0] =>
    [b64EncChar (b0 / 4), b64EncChar (b0 % 4 * 16), '=', '=']
  | [b0, b1] =>
    [b64EncChar (b0 / 4), b64EncChar (b0 % 4 * 16 + b1 / 16),
     b64EncChar (b1 % 16 * 4), '=']
  | b0 :: b1 :: b2 :: rest =>
    b64EncChar (b0 / 4) :: b64EncChar (b0 % 4 * 16 + b1 / 16) ::
    b64EncChar (b1 % 16 * 4 + b2 / 64) :: b64EncChar (b2 % 64) :: b64Encode rest

/-- Base64 decoding, four characters per block; '=' padding is accepted
    only at the very end of the input. -/
def b64Decode : List Char → Option (List Nat)
  | [] => some []
  | c0 :: c1 :: c2 :: c3 :: rest =>
    match b64DecChar c0, b64DecChar c1 with
    | some s0, some s1 =>
      if c2 = '=' then
        if c3 = '=' then
          if rest = [] then some [s0 * 4 + s1 / 16] else none
        else none
      else
        match b64DecChar c2 with
        | some s2 =>
          if c3 = '=' then
            if rest = [] then some [s0 * 4 + s1 / 16, s1 % 16 * 16 + s2 / 4] else none
          else
            match b64DecChar c3 with
            | some s3 =>
              match b64Decode rest with
              | some bs => some ((s0 * 4 + s1 / 16) :: (s1 % 16 * 16 + s2 / 4) ::
                                 (s2 % 4 * 64 + s3) :: bs)
              | none => none
            | none => none
        | none => none
    | _, _ => none
  | _ => none

theorem b64Decode_b64Encode (bs : List Nat) (h : ∀ b ∈ bs, b < 256) :
    b64Decode (b64Encode bs) = some bs := by
  induction bs using b64Encode.induct with
  | case1 =>
    simp [b64Encode, b64Decode]
  | case2 b0 =>
    have h0 : b0 < 256 := h b0 (by simp)
    simp only [b64Encode, b64Decode, b64DecChar_encChar (b0 / 4) (by omega),
      b64DecChar_encChar (b0 % 4 * 16) (by omega), eq_self_iff_true, if_true]
    simp only [Option.some.injEq, List.cons.injEq, and_true]
    omega
  | case3 b0 b1 =>
    have h0 : b0 < 256 := h b0 (by simp)
    have h1 : b1 < 256 := h b1 (by simp)
    simp only [b64Encode, b64Decode, b64DecChar_encChar (b0 / 4) (by omega),
      b64DecChar_encChar (b0 % 4 * 16 + b1 / 16) (by omega),
      if_neg (b64EncChar_ne_pad (b1 % 16 * 4) (by omega)),
      b64DecChar_encChar (b1 % 16 * 4) (by omega), eq_self_iff_true, if_true]
    simp only [Option.some.injEq, List.cons.injEq, and_true]
    refine ⟨by omega, by omega⟩
  | case4 b0 b1 b2 rest ih =>
    have h0 : b0 < 256 := h b0 (by simp)
    have h1 : b1 < 256 := h b1 (by simp)
    have h2 : b2 < 256 := h b2 (by simp)
    have hrest : ∀ b ∈ rest, b < 256 := by
      intro b hb
      exact h b (by simp [hb])
    simp only [b64Encode, b64Decode, b64DecChar_encChar (b0 / 4) (by omega),
      b64DecChar_encChar (b0 % 4 * 16 + b1 / 16) (by omega),
      if_neg (b64EncChar_ne_pad (b1 % 16 * 4 + b2 / 64) (by omega)),
      b64DecChar_encChar (b1 % 16 * 4 + b2 / 64) (by omega),
      if_neg (b64EncChar_ne_pad (b2 % 64) (by omega)),
      b64DecChar_encChar (b2 % 64) (by omega), ih hrest]
    simp only [Option.some.injEq, List.cons.injEq, and_true]
    refine ⟨by omega, by omega, by omega⟩

theorem b64Encode_structure (bs : List Nat) (h : ∀ b ∈ bs, b < 256) :
    ∃ body p, b64Encode bs = body ++ List.replicate p '=' ∧ p ≤ 2 ∧
      '=' ∉ body ∧ (body.length + p) % 4 = 0 := by
  induction bs using b64Encode.induct with
  | case1 =>
    exact ⟨[], 0, by simp [b64Encode], by omega, by simp, by simp⟩
  | case2 b0 =>
    have h0 : b0 < 256 := h b0 (by simp)
    refine ⟨[b64EncChar (b0 / 4), b64EncChar (b0 % 4 * 16)], 2, ?_, by omega, ?_, by simp⟩
    · simp [b64Encode, List.replicate]
    · intro hmem
      simp only [List.mem_cons, List.not_mem_nil, or_false] at hmem
      rcases hmem with h1 | h1
      · exact b64EncChar_ne_pad (b0 / 4) (by omega) h1.symm
      · exact b64EncChar_ne_pad (b0 % 4 * 16) (by omega) h1.symm
  | case3 b0 b1 =>
    have h0 : b0 < 256 := h b0 (by simp)
    have h1 : b1 < 256 := h b1 (by simp)
    refine ⟨[b64EncChar (b0 / 4), b64EncChar (b0 % 4 * 16 + b1 / 16),
             b64EncChar (b1 % 16 * 4)], 1, ?_, by omega, ?_, by simp⟩
    · simp [b64Encode, List.replicate]
    · intro hmem
      simp only [List.mem_cons, List.not_mem_nil, or_false] at hmem
      rcases hmem with h2 | h2 | h2
      · exact b64EncChar_ne_pad (b0 / 4) (by omega) h2.symm
      · exact b64EncChar_ne_pad (b0 % 4 * 16 + b1 / 16) (by omega) h2.symm
      · exact b64EncChar_ne_pad (b1 % 16 * 4) (by omega) h2.symm
  | case4 b0 b1 b2 rest ih =>
    have h0 : b0 < 256 := h b0 (by simp)
    have h1 : b1 < 256 := h b1 (by simp)
    have h2 : b2 < 256 := h b2 (by simp)
    have hrest : ∀ b ∈ rest, b < 256 := by
      intro b hb
      exact h b (by simp [hb])
    obtain ⟨body, p, he, hp2, hnm, hmod⟩ := ih hrest
    refine ⟨b64EncChar (b0 / 4) :: b64EncChar (b0 % 4 * 16 + b1 / 16) ::
            b64EncChar (b1 % 16 * 4 + b2 / 64) :: b64EncChar (b2 % 64) :: body, p,
            ?_, hp2, ?_, ?_⟩
    · simp only [b64Encode, he, List.cons_append]
    · intro hmem
      simp only [List.mem_cons] at hmem
      rcases hmem with h3 | h3 | h3 | h3 | h3
      · exact b64EncChar_ne_pad (b0 / 4) (by omega) h3.symm
      · exact b64EncChar_ne_pad (b0 % 4 * 16 + b1 / 16) (by omega) h3.symm
      · exact b64EncChar_ne_pad (b1 % 16 * 4 + b2 / 64) (by omega) h3.symm
      · exact b64EncChar_ne_pad (b2 % 64) (by omega) h3.symm
      · exact hnm h3
    · simp only [List.length_cons]
      omega

theorem dropWhile_pad_replicate (p : Nat) (l : List Char) :
    (List.replicate p '=' ++ l).dropWhile (fun c => List.contains ['='] c) =
      l.dropWhile (fun c => List.contains ['='] c) := by
  induction p with
  | zero => simp
  | succ p ih =>
    rw [List.replicate_succ, List.cons_append, List.dropWhile_cons_of_pos (by rfl), ih]

theorem dropWhile_pad_of_not_mem (l : List Char) (hl : '=' ∉ l) :
    l.dropWhile (fun c => List.contains ['='] c) = l := by
  cases l with
  | nil => rfl
  | cons c cs =>
    rw [List.dropWhile_cons_of_neg]
    intro hc
    simp only [List.contains_cons, List.contains_nil, Bool.or_false, beq_iff_eq] at hc
    exact hl (by simp [hc])

-- ---------------------------------------------------------------------------
-- Key.Encode and DecodeKey (src/dev/exp key.go, lines 144-154 and 288-305)
-- ---------------------------------------------------------------------------

/-- Key.Encode: wire reference message, protobuf marshal, URL-safe base64,
    trailing '=' padding stripped (strings.TrimRight(..., "=")). -/
def Key.Encode (k : Key) : String :=
  goTrimRightAny ⟨b64Encode (marshalReference (keyToProto k))⟩ ['=']

/-- DecodeKey: re-add '=' padding up to a multiple of four, base64-decode,
    protobuf-unmarshal, then `protoToKey`. -/
def DecodeKey (encoded : String) : Except DSError (Option Key) :=
  let cs := encoded.data
  let padded :=
    if cs.length % 4 ≠ 0 then cs ++ List.replicate (4 - cs.length % 4) '=' else cs
  match b64Decode padded with
  | none => .error .base64DecodeError
  | some bytes =>
    match unmarshalReference bytes with
    | none => .error .protoUnmarshalError
    | some ref => protoToKey ref

/-- Stripping the trailing '=' padding of a base64 encoding and re-padding
    to a multiple of four restores the original encoding. -/
theorem trim_pad_b64 (bs : List Nat) (h : ∀ b ∈ bs, b < 256) :
    (let t := (goTrimRightAny ⟨b64Encode bs⟩ ['=']).data
     if t.length % 4 ≠ 0 then t ++ List.replicate (4 - t.length % 4) '=' else t) =
      b64Encode bs := by
  obtain ⟨body, p, he, hp2, hnm, hmod⟩ := b64Encode_structure bs h
  have ht : (goTrimRightAny ⟨b64Encode bs⟩ ['=']).data = body := by
    show ((b64Encode bs).reverse.dropWhile (fun c => List.contains ['='] c)).reverse = body
    rw [he, List.reverse_append, List.reverse_replicate, dropWhile_pad_replicate,
      dropWhile_pad_of_not_mem body.reverse (by simp [hnm]), List.reverse_reverse]
  simp only [ht]
  rcases Nat.lt_or_ge p 1 with hp | hp
  · have hp0 : p = 0 := by omega
    subst hp0
    have hlen : body.length % 4 = 0 := by omega
    rw [if_neg (by omega)]
    rw [he]
    simp
  · have hlen : body.length % 4 = 4 - p := by omega
    rw [if_pos (by omega)]
    rw [he, hlen]
    have : 4 - (4 - p) = p := by omega
    rw [this]

theorem validChain_destruct (a n kd sid : String) (iid : Int) (p : Option Key)
    (h : Key.validChain (.mk a n kd sid iid p) = true) :
    ¬(sid ≠ "" ∧ iid ≠ 0) ∧
    (∀ q, p = some q → q.validChain = true ∧ q.appID = a ∧ q.nspace = n) := by
  unfold Key.validChain at h
  simp only [Bool.and_eq_true] at h
  obtain ⟨⟨⟨hkd, ha⟩, hid⟩, hp⟩ := h
  constructor
  · intro hcon
    rcases hcon with ⟨hs, hi⟩
    have hsb : (sid != "") = true := by simp [hs]
    have hib : (iid != 0) = true := by simp [hi]
    rw [hsb, hib] at hid
    simp at hid
  · intro q hq
    subst hq
    simp only [Bool.and_eq_true, beq_iff_eq] at hp
    exact ⟨hp.2, hp.1.1.2, hp.1.2⟩

theorem elem_getD_fields (sid : String) (iid : Int) (hnb : ¬(sid ≠ "" ∧ iid ≠ 0)) :
    ((if sid != "" then some sid else none).getD "" = sid) ∧
    (((if sid != "" then none else if iid != 0 then some iid else none) : Option Int).getD 0
      = iid) := by
  by_cases hs : sid = ""
  · subst hs
    simp only [bne_self_eq_false, Bool.false_eq_true, if_false, Option.getD_none, true_and]
    by_cases hi : iid = 0
    · subst hi
      simp
    · have : (iid != 0) = true := by simp [hi]
      simp [this]
  · have hb : (sid != "") = true := by simp [hs]
    have hi : iid = 0 := by
      by_contra hcon
      exact hnb ⟨hs, hcon⟩
    simp [hb, hi]

theorem protoToKeyAux_keyPath (k : Key) (hv : k.validChain = true) (rest : List PathElement) :
    protoToKeyAux k.appID k.nspace none (keyPath k ++ rest) =
      protoToKeyAux k.appID k.nspace (some k) rest := by
  match k with
  | .mk a n kd sid iid none =>
    obtain ⟨hnb, _⟩ := validChain_destruct a n kd sid iid none hv
    obtain ⟨hname, hid⟩ := elem_getD_fields sid iid hnb
    simp only [keyPath, List.nil_append, List.cons_append, protoToKeyAux,
      Key.appID, Key.nspace]
    simp only [Option.getD_some, hname, hid]
    rw [if_pos hv]
    rfl
  | .mk a n kd sid iid (some q) =>
    obtain ⟨hnb, hq⟩ := validChain_destruct a n kd sid iid (some q) hv
    obtain ⟨hqv, hqa, hqn⟩ := hq q rfl
    obtain ⟨hname, hid⟩ := elem_getD_fields sid iid hnb
    have ih := protoToKeyAux_keyPath q hqv
      (⟨some kd,
        if sid != "" then some sid else none,
        if sid != "" then none else if iid != 0 then some iid else none⟩ :: rest)
    rw [hqa, hqn] at ih
    simp only [keyPath, List.append_assoc, List.singleton_append, Key.appID, Key.nspace]
    rw [ih]
    simp only [protoToKeyAux, Option.getD_some, hname, hid]
    rw [if_pos hv]

theorem protoToKey_keyToProto (k : Key) (hv : Key.valid (some k) = true) :
    protoToKey (keyToProto k) = .ok (some k) := by
  have hvc : k.validChain = true := hv
  unfold protoToKey keyToProto
  have hns : (((if k.nspace != "" then some k.nspace else none) : Option String).getD "")
      = k.nspace := by
    by_cases h : k.nspace = "" <;> simp [h]
  simp only [Option.getD_some, hns]
  have := protoToKeyAux_keyPath k hvc []
  rw [List.append_nil] at this
  rw [this]
  rfl

theorem DecodeKey_Key_Encode (k : Key) (hv : Key.valid (some k) = true) :
    DecodeKey (Key.Encode k) = .ok (some k) := by
  have hlt := marshalReference_lt256 (keyToProto k)
  have hpad := trim_pad_b64 (marshalReference (keyToProto k)) hlt
  simp only [] at hpad
  unfold DecodeKey Key.Encode
  simp only [hpad, b64Decode_b64Encode _ hlt, unmarshalReference_marshalReference,
    protoToKey_keyToProto k hv]

-- ---------------------------------------------------------------------------
-- Filter values and the wire query message (src/exp/appengine/datastore/
-- query.go)
-- ---------------------------------------------------------------------------

/-- Modelled from the spec: the "closed tagged union of supported scalar
    kinds" standing for the Go `interface{}` filter value; `null` is the
    zero value of the interface type. -/
inductive QVal where
  | null
  | int (i : Int)
  | str (s : String)
  | bool (b : Bool)
deriving DecidableEq, Repr

/-- fmt `%#v` (Go-syntax representation) of a filter value for the
    scalar kinds of QVal; strings print in double quotes (the values used
    here contain no characters that Go would escape). -/
def QVal.goRepr : QVal → String
  | .null => "<nil>"
  | .int i => toString i
  | .str s => "\"" ++ s ++ "\""
  | .bool b => if b then "true" else "false"

/-- pb.Property: one converted filter property (name and wire value). -/
structure PbProperty where
  name : String
  value : QVal
deriving DecidableEq, Repr

/-- Modelled from the spec: `valueToProto` (the entity-serialization
    collaborator, not in src/) maps each supported scalar kind to a
    wire-typed property and reports any other dynamic value with a
    non-empty error string. -/
def valueToProto (name : String) (v : QVal) : Except String PbProperty :=
  match v with
  | .null => .error "invalid Value type"
  | v => .ok ⟨name, v⟩

/-- pb.Query_Filter_Operator. -/
inductive QFilterOp where
  | LESS_THAN
  | LESS_THAN_OR_EQUAL
  | EQUAL
  | GREATER_THAN_OR_EQUAL
  | GREATER_THAN
deriving DecidableEq, Repr

/-- pb.Query_Order_Direction. -/
inductive QOrderDir where
  | ASCENDING
  | DESCENDING
deriving DecidableEq, Repr

/-- operatorToProto (query.go, lines 275-281): the five supported
    operator strings; Go map lookup misses are `none`. -/
def operatorToProto (op : String) : Option QFilterOp :=
  if op = "<" then some .LESS_THAN
  else if op = "<=" then some .LESS_THAN_OR_EQUAL
  else if op = "=" then some .EQUAL
  else if op = ">=" then some .GREATER_THAN_OR_EQUAL
  else if op = ">" then some .GREATER_THAN
  else none

/-- orderDirectionToProto (query.go, lines 334-337). -/
def orderDirectionToProto (d : String) : Option QOrderDir :=
  if d = "+" then some .ASCENDING
  else if d = "-" then some .DESCENDING
  else none

/-- pb.Query_Filter: operator and property list (nil slice as []). -/
structure PbFilter where
  op : Option QFilterOp
  property : List PbProperty
deriving DecidableEq, Repr

/-- The zero value `pb.Query_Filter{}` allocated per loop iteration. -/
def emptyPbFilter : PbFilter := ⟨none, []⟩

/-- pb.Query_Order. -/
structure PbOrder where
  property : Option String
  direction : Option QOrderDir
deriving DecidableEq, Repr

/-- The zero value `pb.Query_Order{}` allocated per loop iteration. -/
def emptyPbOrder : PbOrder := ⟨none, none⟩

/-- pb.Query: the destination wire message written by Query.toProto and
    QueryOptions.toProto.  Cursor payloads are opaque tokens. -/
structure PbQuery where
  kind : Option String
  ancestor : Option Reference
  filter : Option (List PbFilter)
  order : Option (List PbOrder)
  limit : Option Int
  offset : Option Int
  keysOnly : Option Bool
  compile : Option Bool
  compiledCursor : Option Nat
  endCompiledCursor : Option Nat
deriving DecidableEq, Repr

/-- The zero value `pb.Query{}` handed to toProto by the caller. -/
def emptyPbQuery : PbQuery :=
  ⟨none, none, none, none, none, none, none, none, none, none⟩

-- ---------------------------------------------------------------------------
-- queryFilter and queryOrder (query.go, lines 283-373)
-- ---------------------------------------------------------------------------

/-- queryFilter (query.go, lines 283-287): the raw filter expression and
    its value, stored as defined by the user. -/
structure QueryFilter where
  filter : String
  value : QVal
deriving DecidableEq, Repr

/-- queryFilter.String (query.go, lines 290-293): fmt "%v%#v". -/
def QueryFilter.display (q : QueryFilter) : String :=
  q.filter ++ q.value.goRepr

/-- queryFilter.parse (query.go, lines 315-328): trim the expression;
    empty input fails; the property is the input with any trailing run of
    space, '>', '<', '=' removed; empty property fails; the operator is
    the trimmed remaining suffix. -/
def QueryFilter.parse (q : QueryFilter) : Except DSError (String × String) :=
  let filter := goTrimSpace q.filter
  if filter = "" then
    .error (.invalidQueryFilter filter)
  else
    let property := goTrimRightAny filter [' ', '>', '<', '=']
    if property = "" then
      .error .emptyQueryFilterProperty
    else
      let operator := goTrimSpace ⟨filter.data.drop property.data.length⟩
      .ok (property, operator)

/-- queryFilter.toProto (query.go, lines 296-312): parse, look the
    operator up (writing the lookup result into dst.Op before the nil
    check, as the Go code does), then convert the value. -/
def QueryFilter.toProto (q : QueryFilter) (dst : PbFilter) : PbFilter × Option DSError :=
  match q.parse with
  | .error err => (dst, some err)
  | .ok (property, operator) =>
    let dst2 : PbFilter := { dst with op := operatorToProto operator }
    if (operatorToProto operator).isNone then
      (dst2, some (.invalidOperator operator q.filter))
    else
      match valueToProto property q.value with
      | .error errStr => (dst2, some (.badValueType errStr))
      | .ok prop => ({ dst2 with property := [prop] }, none)

/-- queryOrder.parse (query.go, lines 365-373): trim; a leading '-'
    marks descending and is stripped before re-trimming. -/
def queryOrderParse (q : String) : String × String :=
  let property := goTrimSpace q
  match property.data with
  | '-' :: rest => (goTrimSpace ⟨rest⟩, "-")
  | _ => (property, "+")

/-- queryOrder.String (query.go, lines 343-351). -/
def queryOrderDisplay (q : String) : String :=
  let pd := queryOrderParse q
  let dirStr := if pd.2 = "+" then "ASC" else "DESC"
  pd.1 ++ " " ++ dirStr

/-- queryOrder.toProto (query.go, lines 354-362). -/
def queryOrderToProto (q : String) (dst : PbOrder) : PbOrder × Option DSError :=
  let pd := queryOrderParse q
  if pd.1 = "" then
    (dst, some .emptyQueryOrderProperty)
  else
    ({ dst with property := some pd.1, direction := orderDirectionToProto pd.2 }, none)

-- ---------------------------------------------------------------------------
-- Go slices with capacity and aliasing, and the Query builder
-- (query.go, lines 41-87)
-- ---------------------------------------------------------------------------

/-- A Go slice header: index of the backing array in the heap and the
    slice length (the slices built by the Query mutators always start at
    offset zero). -/
structure GoSlice where
  arr : Nat
  len : Nat
deriving DecidableEq, Repr

/-- The elements a slice denotes: the first `len` entries of its backing
    array; a nil slice (`none`) denotes no elements.  Each stored array
    has exactly its capacity as list length. -/
def readSlice {α : Type} (h : List (List α)) (s : Option GoSlice) : List α :=
  match s with
  | none => []
  | some sl => (h.getD sl.arr []).take sl.len

/-- Go `append` of one element: writes in place when spare capacity
    exists (the aliasing visible through the heap), otherwise allocates a
    fresh backing array with doubled capacity (Go's small-slice growth
    rule), padding the spare capacity slots with the zero value. -/
def goAppend {α : Type} (h : List (List α)) (s : Option GoSlice) (x : α) (zero : α) :
    List (List α) × GoSlice :=
  match s with
  | none => (h ++ [[x]], ⟨h.length, 1⟩)
  | some sl =>
    let arr := h.getD sl.arr []
    if sl.len < arr.length then
      (h.set sl.arr (arr.set sl.len x), ⟨sl.arr, sl.len + 1⟩)
    else
      let newcap := if arr.length = 0 then 1 else 2 * arr.length
      let newarr := arr.take sl.len ++ [x] ++ List.replicate (newcap - (sl.len + 1)) zero
      (h ++ [newarr], ⟨h.length, sl.len + 1⟩)

/-- The program store backing every filter slice and order slice. -/
structure DSState where
  fheap : List (List QueryFilter)
  oheap : List (List String)
deriving DecidableEq, Repr

/-- The store of a program that has not built any filters or orders. -/
def emptyDSState : DSState := ⟨[], []⟩

/-- Query (query.go, lines 46-52): kind, ancestor, and the filter and
    order slice headers. -/
structure Query where
  kind : String
  ancestor : Option Key
  filter : Option GoSlice
  order : Option GoSlice
deriving DecidableEq

/-- NewQuery (query.go, lines 41-44). -/
def NewQuery (kind : String) : Query :=
  ⟨kind, none, none, none⟩

/-- Query.Kind (query.go, lines 54-59): shallow copy, new kind. -/
def Query.Kind (q : Query) (kind : String) : Query :=
  { q with kind := kind }

/-- Query.Ancestor (query.go, lines 62-66): shallow copy, new ancestor. -/
def Query.Ancestor (q : Query) (ancestor : Option Key) : Query :=
  { q with ancestor := ancestor }

/-- Query.Filter (query.go, lines 73-77): shallow copy of the receiver;
    `c.filter = append(c.filter, queryFilter{filterStr, value})` with Go
    append semantics on the shared heap. -/
def Query.Filter (q : Query) (filterStr : String) (value : QVal) (st : DSState) :
    Query × DSState :=
  let hs := goAppend st.fheap q.filter ⟨filterStr, value⟩ ⟨"", .null⟩
  ({ q with filter := some hs.2 }, { st with fheap := hs.1 })

/-- Query.Order (query.go, lines 83-87): shallow copy of the receiver;
    `c.order = append(c.order, queryOrder(order))`. -/
def Query.Order (q : Query) (order : String) (st : DSState) : Query × DSState :=
  let hs := goAppend st.oheap q.order order ""
  ({ q with order := some hs.2 }, { st with oheap := hs.1 })

/-- The filters a query currently denotes. -/
def Query.filters (q : Query) (st : DSState) : List QueryFilter :=
  readSlice st.fheap q.filter

/-- The orders a query currently denotes. -/
def Query.orders (q : Query) (st : DSState) : List String :=
  readSlice st.oheap q.order

/-- Query.String (query.go, lines 90-121): the SQL-like display string.
    Named displayString because the Go method name String collides with
    the Lean String type inside its own definition. -/
def Query.displayString (q : Query) (st : DSState) : String :=
  let buf := "SELECT *"
  let buf := if q.kind != "" then buf ++ " FROM " ++ q.kind else buf
  let bw : String × Bool :=
    match q.ancestor with
    | some a => (buf ++ " WHERE ANCESTOR IS KEY('" ++ a.Encode ++ "')", true)
    | none => (buf, false)
  let bw : String × Bool :=
    match q.filter with
    | none => bw
    | some _ =>
      (q.filters st).foldl
        (fun acc f =>
          if !acc.2 then (acc.1 ++ " WHERE " ++ f.display, true)
          else (acc.1 ++ " AND " ++ f.display, true))
        bw
  let buf :=
    match q.order with
    | none => bw.1
    | some _ =>
      ((q.orders st).foldl
        (fun (acc : String × Bool) o =>
          if acc.2 then (acc.1 ++ " " ++ queryOrderDisplay o, false)
          else (acc.1 ++ ", " ++ queryOrderDisplay o, false))
        (bw.1 ++ " ORDER BY", true)).1
  buf

-- ---------------------------------------------------------------------------
-- Query.toProto (query.go, lines 139-174)
-- ---------------------------------------------------------------------------

/-- The filter loop of Query.toProto: each filter is converted into a
    fresh zero wire filter; the (possibly partially written) result is
    stored at its index and errors are collected in index order. -/
def convFilters : List QueryFilter → List PbFilter × List (Option DSError)
  | [] => ([], [])
  | f :: rest =>
    let pe := f.toProto emptyPbFilter
    let rec2 := convFilters rest
    (pe.1 :: rec2.1, (match pe.2 with | some err => [some err] | none => []) ++ rec2.2)

/-- The order loop of Query.toProto. -/
def convOrders : List String → List PbOrder × List (Option DSError)
  | [] => ([], [])
  | o :: rest =>
    let pe := queryOrderToProto o emptyPbOrder
    let rec2 := convOrders rest
    (pe.1 :: rec2.1, (match pe.2 with | some err => [some err] | none => []) ++ rec2.2)

/-- Query.toProto (query.go, lines 139-174): writes into dst as it goes
    (kind unless empty, ancestor, the converted filter and order arrays)
    and returns the accumulated ErrMulti when it is non-empty. -/
def Query.toProto (q : Query) (st : DSState) (dst : PbQuery) : PbQuery × Option ErrMulti :=
  let de : PbQuery × List (Option DSError) :=
    if q.kind != "" then ({ dst with kind := some q.kind }, [])
    else (dst, [some DSError.emptyQueryKind])
  let dst := de.1
  let dst :=
    match q.ancestor with
    | some a => { dst with ancestor := some (keyToProto a) }
    | none => dst
  let df : PbQuery × List (Option DSError) :=
    match q.filter with
    | none => (dst, [])
    | some _ =>
      let ce := convFilters (q.filters st)
      ({ dst with filter := some ce.1 }, ce.2)
  let dst := df.1
  let dord : PbQuery × List (Option DSError) :=
    match q.order with
    | none => (dst, [])
    | some _ =>
      let ce := convOrders (q.orders st)
      ({ dst with order := some ce.1 }, ce.2)
  let errMulti := de.2 ++ df.2 ++ dord.2
  (dord.1, if errMulti.length > 0 then some errMulti else none)

-- ---------------------------------------------------------------------------
-- QueryOptions (query.go, lines 180-269) and validInt32 (lines 380-387)
-- ---------------------------------------------------------------------------

/-- Modelled from the spec: Cursor (defined outside src/) wraps an opaque
    backend-issued compiled-cursor token, possibly unset. -/
structure Cursor where
  compiledCursor : Option Nat
deriving DecidableEq, Repr

/-- QueryOptions (query.go, lines 185-196). -/
structure QueryOptions where
  limit : Int
  offset : Int
  keysOnly : Bool
  compile : Bool
  startCursor : Option Cursor
  endCursor : Option Cursor
deriving DecidableEq, Repr

/-- NewQueryOptions (query.go, lines 181-183). -/
def NewQueryOptions (limit offset : Int) : QueryOptions :=
  ⟨limit, offset, false, false, none, none⟩

/-- QueryOptions.Limit (query.go, lines 200-204). -/
def QueryOptions.Limit (o : QueryOptions) (limit : Int) : QueryOptions :=
  { o with limit := limit }

/-- QueryOptions.Offset (query.go, lines 208-212). -/
def QueryOptions.Offset (o : QueryOptions) (offset : Int) : QueryOptions :=
  { o with offset := offset }

/-- QueryOptions.KeysOnly (query.go, lines 215-219). -/
def QueryOptions.KeysOnly (o : QueryOptions) (keysOnly : Bool) : QueryOptions :=
  { o with keysOnly := keysOnly }

/-- QueryOptions.Compile (query.go, lines 222-226). -/
def QueryOptions.Compile (o : QueryOptions) (compile : Bool) : QueryOptions :=
  { o with compile := compile }

/-- QueryOptions.Cursor (query.go, lines 229-235). -/
def QueryOptions.Cursor (o : QueryOptions) (cursor : Option Cursor) : QueryOptions :=
  { o with startCursor := cursor }

/-- validInt32 (query.go, lines 380-387): rejects negative values and
    values above math.MaxInt32, without clamping. -/
def validInt32 (value : Int) (name : String) : Option DSError :=
  if value < 0 then some (.negativeValue name)
  else if value > 2147483647 then some (.overflowValue name)
  else none

/-- QueryOptions.toProto (query.go, lines 245-269): limit and offset are
    validated independently and written only on success; keysOnly and
    compile are always written; cursor fields are copied when a cursor
    value is present. -/
def QueryOptions.toProto (o : QueryOptions) (dst : PbQuery) : PbQuery × Option ErrMulti :=
  let d1 : PbQuery × List (Option DSError) :=
    match validInt32 o.limit "limit" with
    | some err => (dst, [some err])
    | none => ({ dst with limit := some o.limit }, [])
  let d2 : PbQuery × List (Option DSError) :=
    match validInt32 o.offset "offset" with
    | some err => (d1.1, [some err])
    | none => ({ d1.1 with offset := some o.offset }, [])
  let dst := { d2.1 with keysOnly := some o.keysOnly, compile := some o.compile }
  let dst :=
    match o.startCursor with
    | some c => { dst with compiledCursor := c.compiledCursor }
    | none => dst
  let dst :=
    match o.endCursor with
    | some c => { dst with endCompiledCursor := c.compiledCursor }
    | none => dst
  let errMulti := d1.2 ++ d2.2
  (dst, if errMulti.length > 0 then some errMulti else none)

/-- Modelled from the spec: the query-execution entry point (the iterator
    constructor invoked by Query.Run, not in src/) converts the Query and
    its QueryOptions into one wire message, reporting the faults of both
    conversions in a single multi-error accumulator ("structural and
    range problems across a composite are accumulated, never
    fail-fast"). -/
def runConvert (q : Query) (st : DSState) (o : QueryOptions) : PbQuery × Option ErrMulti :=
  let r1 := q.toProto st emptyPbQuery
  let r2 := o.toProto r1.1
  let es := r1.2.getD [] ++ r2.2.getD []
  (r2.1, if es.length > 0 then some es else none)

/-- The number of levels of a key chain. -/
def Key.chainLen (k : Key) : Nat :=
  k.chainList.length

/-- All faults of one Query-to-wire conversion, in the order the Go loop
    accumulates them: the empty-kind error, then one error per failing
    filter in index order, then one per failing order. -/
def Query.faults (q : Query) (st : DSState) : List (Option DSError) :=
  (if q.kind != "" then [] else [some DSError.emptyQueryKind]) ++
  (match q.filter with | none => [] | some _ => (convFilters (q.filters st)).2) ++
  (match q.order with | none => [] | some _ => (convOrders (q.orders st)).2)

-- ---------------------------------------------------------------------------
-- Concrete program inputs used by witnesses and counterexamples
-- ---------------------------------------------------------------------------

/-- A two-level valid key: complete root "Root/rootname", child with
    intID 42, shared app and namespace. -/
def keyW : Key :=
  .mk "test-app" "ns" "Child" "" 42 (some (.mk "test-app" "ns" "Root" "rootname" 0 none))

/-- Keys differing only in their owning appID. -/
def keyA : Key := .mk "appA" "ns" "Kind" "name" 0 none

/-- See keyA. -/
def keyB : Key := .mk "appB" "ns" "Kind" "name" 0 none

/-- A query with kind "Person" and the single (empty) filter "". -/
def qEmptyFilter : Query × DSState :=
  (NewQuery "Person").Filter "" .null emptyDSState

/-- Options carrying limit -1 and offset 0. -/
def optNegLimit : QueryOptions :=
  NewQueryOptions (-1) 0

/-- Building three filters on one query: the third append leaves the
    backing array with spare capacity (len 3, cap 4). -/
def c4Base : Query × DSState :=
  let a := (NewQuery "Kind").Filter "a =" (.int 1) emptyDSState
  let b := a.1.Filter "b =" (.int 2) a.2
  b.1.Filter "c =" (.int 3) b.2

/-- First builder call on the shared base query. -/
def c4A : Query × DSState :=
  c4Base.1.Filter "fa =" (.int 4) c4Base.2

/-- Second builder call on the same base query, after c4A. -/
def c4B : Query × DSState :=
  c4Base.1.Filter "fb =" (.int 5) c4A.2

/-- The C5 query: kind "Person", filter "age >=" with value 18, order
    "-age". -/
def q5 : Query × DSState :=
  let a := (NewQuery "Person").Filter "age >=" (.int 18) emptyDSState
  a.1.Order "-age" a.2

/-- The C6 witness filter. -/
def filterW : QueryFilter :=
  ⟨"age >=", .int 18⟩

/-- A batch with one valid key and one nil key. -/
def batchW : List (Option Key) :=
  [some keyA, none]

-- ---------------------------------------------------------------------------
-- Lemmas about key equality
-- ---------------------------------------------------------------------------

theorem chainList_ne_nil (k : Key) : k.chainList ≠ [] := by
  cases k
  unfold Key.chainList
  simp

theorem eqChain_iff_chainList : (a b : Key) →
    (Key.eqChain a b = true ↔ a.chainList = b.chainList)
  | .mk a1 n1 k1 s1 i1 p1, .mk a2 n2 k2 s2 i2 p2 => by
    unfold Key.eqChain
    split
    · rename_i hcond
      simp only [Bool.false_eq_true, false_iff]
      intro hlist
      unfold Key.chainList at hlist
      simp only [List.cons.injEq, KeyFields.mk.injEq] at hlist
      obtain ⟨⟨hk, hs, hi, ha, hn⟩, _⟩ := hlist
      subst hk
      subst hs
      subst hi
      subst ha
      subst hn
      simp at hcond
    · rename_i hcond
      simp only [Bool.or_eq_true, bne_iff_ne, ne_eq, not_or, not_not] at hcond
      obtain ⟨⟨⟨⟨hk, hs⟩, hi⟩, hn⟩, ha⟩ := hcond
      subst hk
      subst hs
      subst hi
      subst hn
      subst ha
      conv_rhs => unfold Key.chainList
      simp only [List.cons.injEq, true_and]
      cases p1 with
      | none =>
        cases p2 with
        | none => simp
        | some q2 => simp [(chainList_ne_nil q2).symm]
      | some q1 =>
        cases p2 with
        | none => simp [chainList_ne_nil q1]
        | some q2 => exact eqChain_iff_chainList q1 q2

theorem equalChain_iff_chainList : (a b : Key) →
    (Key.equalChain a b = true ↔ a.chainList = b.chainList)
  | .mk a1 n1 k1 s1 i1 p1, .mk a2 n2 k2 s2 i2 p2 => by
    unfold Key.equalChain
    split
    · rename_i hcond
      simp only [Bool.false_eq_true, false_iff]
      intro hlist
      unfold Key.chainList at hlist
      simp only [List.cons.injEq, KeyFields.mk.injEq] at hlist
      obtain ⟨⟨hk, hs, hi, ha, hn⟩, _⟩ := hlist
      subst hk
      subst hs
      subst hi
      subst ha
      subst hn
      simp at hcond
    · rename_i hcond
      simp only [Bool.or_eq_true, bne_iff_ne, ne_eq, not_or, not_not] at hcond
      obtain ⟨⟨⟨⟨hk, hs⟩, hi⟩, ha⟩, hn⟩ := hcond
      subst hk
      subst hs
      subst hi
      subst hn
      subst ha
      conv_rhs => unfold Key.chainList
      simp only [List.cons.injEq, true_and]
      cases p1 with
      | none =>
        cases p2 with
        | none => simp
        | some q2 => simp [(chainList_ne_nil q2).symm]
      | some q1 =>
        cases p2 with
        | none => simp [chainList_ne_nil q1]
        | some q2 => exact equalChain_iff_chainList q1 q2

theorem eqChain_eq_equalChain (a b : Key) : Key.eqChain a b = Key.equalChain a b := by
  by_cases h : a.chainList = b.chainList
  · rw [(eqChain_iff_chainList a b).2 h, (equalChain_iff_chainList a b).2 h]
  · have h1 : Key.eqChain a b ≠ true := fun hc => h ((eqChain_iff_chainList a b).1 hc)
    have h2 : Key.equalChain a b ≠ true := fun hc => h ((equalChain_iff_chainList a b).1 hc)
    simp only [Bool.not_eq_true] at h1 h2
    rw [h1, h2]


-- ---------------------------------------------------------------------------
-- Lemmas about Query.toProto
-- ---------------------------------------------------------------------------

theorem convFilters_fst (fs : List QueryFilter) :
    (convFilters fs).1 = fs.map (fun f => (f.toProto emptyPbFilter).1) := by
  induction fs with
  | nil => rfl
  | cons f rest ih =>
    simp only [convFilters, List.map_cons, ih]

theorem convFilters_snd (fs : List QueryFilter) :
    (convFilters fs).2 =
      (fs.filterMap (fun f => (f.toProto emptyPbFilter).2)).map some := by
  induction fs with
  | nil => rfl
  | cons f rest ih =>
    simp only [convFilters, List.filterMap_cons]
    cases he : (f.toProto emptyPbFilter).2 with
    | none => simp [ih]
    | some e => simp [ih]

theorem convOrders_fst (os : List String) :
    (convOrders os).1 = os.map (fun o => (queryOrderToProto o emptyPbOrder).1) := by
  induction os with
  | nil => rfl
  | cons o rest ih =>
    simp only [convOrders, List.map_cons, ih]

theorem convOrders_snd (os : List String) :
    (convOrders os).2 =
      (os.filterMap (fun o => (queryOrderToProto o emptyPbOrder).2)).map some := by
  induction os with
  | nil => rfl
  | cons o rest ih =>
    simp only [convOrders, List.filterMap_cons]
    cases he : (queryOrderToProto o emptyPbOrder).2 with
    | none => simp [ih]
    | some e => simp [ih]

theorem Query.toProto_snd (q : Query) (st : DSState) (dst : PbQuery) :
    (q.toProto st dst).2 =
      if (q.faults st).length > 0 then some (q.faults st) else none := by
  unfold Query.toProto Query.faults
  cases q.filter <;> cases q.order <;> by_cases hk : (q.kind != "") = true <;>
    simp [hk]

theorem Query.toProto_fst (q : Query) (st : DSState) (dst : PbQuery) :
    (q.toProto st dst).1 =
      { dst with
        kind := if q.kind != "" then some q.kind else dst.kind,
        ancestor := match q.ancestor with
          | some a => some (keyToProto a)
          | none => dst.ancestor,
        filter := match q.filter with
          | none => dst.filter
          | some _ => some (convFilters (q.filters st)).1,
        order := match q.order with
          | none => dst.order
          | some _ => some (convOrders (q.orders st)).1 } := by
  unfold Query.toProto
  cases q.ancestor <;> cases q.filter <;> cases q.order <;>
    by_cases hk : (q.kind != "") = true <;> simp [hk]

-- ---------------------------------------------------------------------------
-- Claim theorems
-- ---------------------------------------------------------------------------

/-- C1: for every Key forming a valid ancestor chain (every chain has at
    least one level), DecodeKey of Encode succeeds and returns a key
    structurally equal to the original — the same kind, stringID, intID,
    appID and namespace at every level and the same chain length, here
    expressed as Lean equality of the whole chain value. -/
theorem C1_decode_encode_roundtrip (k : Key) (h : Key.valid (some k) = true) :
    DecodeKey (Key.Encode k) = .ok (some k) :=
  DecodeKey_Key_Encode k h

theorem C1_decode_encode_roundtrip_witness :
    Key.valid (some keyW) = true ∧ DecodeKey (Key.Encode keyW) = .ok (some keyW) :=
  ⟨by decide, C1_decode_encode_roundtrip keyW (by decide)⟩

/-- C10: a decoded wire reference whose path has zero elements makes
    protoToKey return the nil key with a nil error, and DecodeKey of the
    well-formed base64 encoding of such a reference ("AQNhcHAAAA", the
    serialized reference with app "app", no namespace and an empty path)
    returns the nil key together with the nil error: neither an
    Identifier nor a decode error. -/
theorem C10_empty_path_decodes_to_nil :
    (∀ app ns : Option String, protoToKey ⟨app, ns, []⟩ = .ok none) ∧
    DecodeKey "AQNhcHAAAA" = .ok none := by
  constructor
  · intro app ns
    rfl
  · rfl

/-- C8: validInt32 rejects -1 and 2^31 and accepts 0 and 2^31 - 1 for
    every field name, and in general accepts exactly the values in
    [0, 2^31 - 1], rejecting the others with an error instead of
    clamping. -/
theorem C8_validInt32_range (name : String) :
    validInt32 (-1) name = some (DSError.negativeValue name) ∧
    validInt32 (2 ^ 31) name = some (DSError.overflowValue name) ∧
    validInt32 0 name = none ∧
    validInt32 (2 ^ 31 - 1) name = none ∧
    (∀ v : Int, validInt32 v name = none ↔ 0 ≤ v ∧ v ≤ 2 ^ 31 - 1) := by
  refine ⟨by unfold validInt32; norm_num, by unfold validInt32; norm_num,
    by unfold validInt32; norm_num, by unfold validInt32; norm_num, ?_⟩
  intro v
  unfold validInt32
  split
  · constructor
    · intro hc
      cases hc
    · intro hc
      omega
  · split
    · constructor
      · intro hc
        cases hc
      · intro hc
        omega
    · constructor
      · intro _
        omega
      · intro _
        rfl

theorem C8_validInt32_range_witness :
    validInt32 (-1) "limit" = some (DSError.negativeValue "limit") :=
  (C8_validInt32_range "limit").1

/-- C7: keys identical except for their owning appID are unequal; keys
    whose chains have different lengths are never equal; equality
    compares the chains node by node from leaf to root on kind,
    stringID, intID, appID and namespace (holding exactly when the
    flattened chains coincide); and the two implementations Key.Eq and
    Key.Equal agree. -/
theorem C7_key_equality (a b : Key) :
    (a.appID ≠ b.appID → Key.Eq (some a) (some b) = false) ∧
    (a.chainLen ≠ b.chainLen → Key.Eq (some a) (some b) = false) ∧
    (Key.Eq (some a) (some b) = true ↔ a.chainList = b.chainList) ∧
    Key.Eq (some a) (some b) = Key.Equal (some a) (some b) := by
  have hiff : Key.Eq (some a) (some b) = true ↔ a.chainList = b.chainList := by
    show Key.eqChain a b = true ↔ _
    exact eqChain_iff_chainList a b
  refine ⟨?_, ?_, hiff, ?_⟩
  · intro hne
    cases heq : Key.Eq (some a) (some b) with
    | false => rfl
    | true =>
      exfalso
      have hc := hiff.1 heq
      cases a with
      | mk a1 n1 k1 s1 i1 p1 =>
        cases b with
        | mk a2 n2 k2 s2 i2 p2 =>
          unfold Key.chainList at hc
          simp only [List.cons.injEq, KeyFields.mk.injEq] at hc
          exact hne hc.1.2.2.2.1
  · intro hne
    cases heq : Key.Eq (some a) (some b) with
    | false => rfl
    | true =>
      exfalso
      exact hne (congrArg List.length (hiff.1 heq))
  · show Key.eqChain a b = Key.equalChain a b
    exact eqChain_eq_equalChain a b

theorem C7_key_equality_witness :
    keyA.appID ≠ keyB.appID ∧ Key.Eq (some keyA) (some keyB) = false :=
  ⟨by decide, (C7_key_equality keyA keyB).1 (by decide)⟩

/-- C9: multiValid returns nil exactly when every key of the batch is
    valid; otherwise it returns an ErrMulti with one slot per input key
    where slot i holds ErrInvalidKey precisely when key i fails
    validation and is empty for valid keys. -/
theorem C9_multiValid_slots (ks : List (Option Key)) :
    (multiValid ks = none ↔ ∀ k ∈ ks, Key.valid k = true) ∧
    (∀ es, multiValid ks = some es →
      es.length = ks.length ∧
      es = ks.map (fun k => if Key.valid k then none else some DSError.invalidKey) ∧
      ∃ k ∈ ks, Key.valid k = false) := by
  have hmap : (ks.map (fun k => if !(Key.valid k) then some DSError.invalidKey else none)) =
      ks.map (fun k => if Key.valid k then none else some DSError.invalidKey) := by
    apply List.map_congr_left
    intro k _
    cases Key.valid k <;> simp
  unfold multiValid
  split
  · rename_i hall
    constructor
    · simp only [true_iff]
      intro k hk
      exact List.all_eq_true.1 hall k hk
    · intro es hes
      cases hes
  · rename_i hall
    constructor
    · constructor
      · intro hc
        cases hc
      · intro hcon
        exact absurd (List.all_eq_true.2 hcon) hall
    · intro es hes
      have hes2 : es = ks.map (fun k => if !(Key.valid k) then some DSError.invalidKey else none) :=
        (Option.some.inj hes).symm
      subst hes2
      refine ⟨by simp, hmap, ?_⟩
      by_contra hcon
      push_neg at hcon
      apply hall
      apply List.all_eq_true.2
      intro k hk
      have := hcon k hk
      cases hv : Key.valid k with
      | true => rfl
      | false => exact absurd hv this

theorem C9_multiValid_slots_witness :
    multiValid batchW = some [none, some DSError.invalidKey] ∧
    [none, some DSError.invalidKey] =
      batchW.map (fun k => if Key.valid k then none else some DSError.invalidKey) :=
  ⟨by decide, ((C9_multiValid_slots batchW).2 [none, some DSError.invalidKey] (by decide)).2.1⟩

theorem operatorToProto_of_not_mem (op : String)
    (h : op ∉ (["<", "<=", "=", ">=", ">"] : List String)) :
    operatorToProto op = none := by
  simp only [List.mem_cons, List.not_mem_nil, or_false, not_or] at h
  obtain ⟨h1, h2, h3, h4, h5⟩ := h
  unfold operatorToProto
  rw [if_neg h1, if_neg h2, if_neg h3, if_neg h4, if_neg h5]

/-- C6: a filter whose parsed operator is one of <, <=, =, >=, > is
    mapped to the corresponding wire operator enum; a filter whose
    parsed operator is any other string (including the empty string or
    combinators) fails with the invalid-operator error carrying both the
    offending operator and the original filter text. -/
theorem C6_operator_translation (f : QueryFilter) (prop op : String)
    (h : f.parse = .ok (prop, op)) :
    ((op = "<" → (f.toProto emptyPbFilter).1.op = some QFilterOp.LESS_THAN) ∧
     (op = "<=" → (f.toProto emptyPbFilter).1.op = some QFilterOp.LESS_THAN_OR_EQUAL) ∧
     (op = "=" → (f.toProto emptyPbFilter).1.op = some QFilterOp.EQUAL) ∧
     (op = ">=" → (f.toProto emptyPbFilter).1.op = some QFilterOp.GREATER_THAN_OR_EQUAL) ∧
     (op = ">" → (f.toProto emptyPbFilter).1.op = some QFilterOp.GREATER_THAN)) ∧
    (op ∉ (["<", "<=", "=", ">=", ">"] : List String) →
      (f.toProto emptyPbFilter).2 = some (DSError.invalidOperator op f.filter) ∧
      (f.toProto emptyPbFilter).1.op = none) := by
  have hop : ∀ w : QFilterOp, operatorToProto op = some w →
      (f.toProto emptyPbFilter).1.op = some w := by
    intro w hw
    unfold QueryFilter.toProto
    rw [h]
    simp only [hw, Option.isNone_some, Bool.false_eq_true, if_false]
    cases valueToProto prop f.value with
    | error e => rfl
    | ok p => rfl
  constructor
  · refine ⟨?_, ?_, ?_, ?_, ?_⟩ <;> intro hsub <;> subst hsub
    · exact hop _ rfl
    · exact hop _ rfl
    · exact hop _ rfl
    · exact hop _ rfl
    · exact hop _ rfl
  · intro hmem
    have hnone := operatorToProto_of_not_mem op hmem
    unfold QueryFilter.toProto
    rw [h]
    simp only [hnone, Option.isNone_none, if_true]
    constructor <;> first | rfl | trivial

theorem C6_operator_translation_witness :
    filterW.parse = .ok ("age", ">=") ∧
    (filterW.toProto emptyPbFilter).1.op = some QFilterOp.GREATER_THAN_OR_EQUAL :=
  ⟨rfl, (C6_operator_translation filterW "age" ">=" rfl).1.2.2.2.1 rfl⟩

/-- C2 counterexample: converting the query with kind "Person" and the
    single filter "" reports an error, yet the destination wire message
    is not left empty: the kind has been written and a zero-valued
    filter slot is present. -/
theorem C2_partial_write_counterexample :
    ((qEmptyFilter.1.toProto qEmptyFilter.2 emptyPbQuery).2).isSome = true ∧
    (qEmptyFilter.1.toProto qEmptyFilter.2 emptyPbQuery).1 ≠ emptyPbQuery ∧
    (qEmptyFilter.1.toProto qEmptyFilter.2 emptyPbQuery).1.kind = some "Person" ∧
    (qEmptyFilter.1.toProto qEmptyFilter.2 emptyPbQuery).1.filter = some [emptyPbFilter] := by
  decide

/-- C2 amended: the conversion succeeds (no error) exactly when the kind
    is non-empty and every filter and order converts, in which case the
    destination holds every translated filter and order; when it fails
    it returns the complete, non-empty fault list (kind fault, then one
    fault per failing filter and order in order) — but the destination
    wire message retains partially applied content rather than being
    left empty. -/
theorem C2_full_conversion_or_enumerated_errors (q : Query) (st : DSState) :
    ((q.toProto st emptyPbQuery).2 = none ↔
      q.kind ≠ "" ∧ (∀ f ∈ q.filters st, (f.toProto emptyPbFilter).2 = none) ∧
        (∀ o ∈ q.orders st, (queryOrderToProto o emptyPbOrder).2 = none)) ∧
    (∀ es, (q.toProto st emptyPbQuery).2 = some es → es = q.faults st ∧ es ≠ []) ∧
    ((q.toProto st emptyPbQuery).2 = none →
      (q.toProto st emptyPbQuery).1 =
        { emptyPbQuery with
          kind := some q.kind,
          ancestor := q.ancestor.map keyToProto,
          filter := match q.filter with
            | none => none
            | some _ => some ((q.filters st).map (fun f => (f.toProto emptyPbFilter).1)),
          order := match q.order with
            | none => none
            | some _ => some ((q.orders st).map
                (fun o => (queryOrderToProto o emptyPbOrder).1)) }) := by
  have hsnd := Query.toProto_snd q st emptyPbQuery
  have hfe : q.faults st = [] ↔
      (q.kind ≠ "" ∧ (∀ f ∈ q.filters st, (f.toProto emptyPbFilter).2 = none) ∧
        (∀ o ∈ q.orders st, (queryOrderToProto o emptyPbOrder).2 = none)) := by
    unfold Query.faults
    simp only [List.append_eq_nil]
    constructor
    · rintro ⟨⟨h1, h2⟩, h3⟩
      refine ⟨?_, ?_, ?_⟩
      · by_cases hk : (q.kind != "") = true
        · simpa using hk
        · rw [if_neg hk] at h1
          cases h1
      · intro f hf
        cases hqf : q.filter with
        | none =>
          unfold Query.filters readSlice at hf
          rw [hqf] at hf
          cases hf
        | some s =>
          rw [hqf] at h2
          rw [convFilters_snd] at h2
          have := List.map_eq_nil_iff.1 h2
          exact List.filterMap_eq_nil_iff.1 this f hf
      · intro o ho
        cases hqo : q.order with
        | none =>
          unfold Query.orders readSlice at ho
          rw [hqo] at ho
          cases ho
        | some s =>
          rw [hqo] at h3
          rw [convOrders_snd] at h3
          have := List.map_eq_nil_iff.1 h3
          exact List.filterMap_eq_nil_iff.1 this o ho
    · rintro ⟨h1, h2, h3⟩
      have hk : (q.kind != "") = true := by simpa using h1
      refine ⟨⟨by rw [if_pos hk], ?_⟩, ?_⟩
      · cases hqf : q.filter with
        | none => rfl
        | some s =>
          rw [convFilters_snd]
          rw [List.map_eq_nil_iff, List.filterMap_eq_nil_iff]
          intro f hf
          exact h2 f hf
      · cases hqo : q.order with
        | none => rfl
        | some s =>
          rw [convOrders_snd]
          rw [List.map_eq_nil_iff, List.filterMap_eq_nil_iff]
          intro o ho
          exact h3 o ho
  have hnone_iff : (q.toProto st emptyPbQuery).2 = none ↔ q.faults st = [] := by
    rw [hsnd]
    constructor
    · intro hc
      by_cases hl : (q.faults st).length > 0
      · rw [if_pos hl] at hc
        cases hc
      · exact List.length_eq_zero.1 (by omega)
    · intro hc
      rw [hc]
      simp
  refine ⟨hnone_iff.trans hfe, ?_, ?_⟩
  · intro es hes
    rw [hsnd] at hes
    by_cases hl : (q.faults st).length > 0
    · rw [if_pos hl] at hes
      have hes2 := Option.some.inj hes
      subst hes2
      exact ⟨rfl, by intro hc; rw [hc] at hl; simp at hl⟩
    · rw [if_neg hl] at hes
      cases hes
  · intro hnone
    have hf : q.faults st = [] := hnone_iff.1 hnone
    have hk : q.kind ≠ "" := (hfe.1 hf).1
    have hkb : (q.kind != "") = true := by simpa using hk
    rw [Query.toProto_fst]
    cases q.ancestor <;> cases hqf : q.filter <;> cases hqo : q.order <;>
      simp [hkb, convFilters_fst, convOrders_fst, emptyPbQuery]

/-- C3 counterexample: with the single filter "" and limit -1, the
    accumulator holds the invalid-query-filter error and the
    negative-limit error; it contains no empty-filter-property error, so
    the claim's description of the first accumulated error fails on this
    input. -/
theorem C3_error_kinds_counterexample :
    (runConvert qEmptyFilter.1 qEmptyFilter.2 optNegLimit).2 =
      some [some (DSError.invalidQueryFilter ""), some (DSError.negativeValue "limit")] ∧
    some DSError.emptyQueryFilterProperty ∉
      [some (DSError.invalidQueryFilter ""), some (DSError.negativeValue "limit")] := by
  decide

/-- C3 amended: for every non-empty kind, converting a Query holding the
    single filter expression "" while its options carry limit -1 reports
    exactly two errors accumulated together in one multi-error list: the
    invalid-(empty)-query-filter error and the negative-limit error. -/
theorem C3_two_errors_accumulated (kind : String) (h : kind ≠ "") :
    (runConvert ((NewQuery kind).Filter "" .null emptyDSState).1
        ((NewQuery kind).Filter "" .null emptyDSState).2
        (NewQueryOptions (-1) 0)).2 =
      some [some (DSError.invalidQueryFilter ""), some (DSError.negativeValue "limit")] := by
  have hk : (kind != "") = true := by simpa using h
  simp [runConvert, Query.toProto, QueryOptions.toProto, NewQuery, Query.Filter, goAppend,
    emptyDSState, Query.filters, Query.orders, readSlice, convFilters, QueryFilter.toProto,
    QueryFilter.parse, goTrimSpace, validInt32, NewQueryOptions, hk]

theorem C3_two_errors_accumulated_witness :
    ("Person" : String) ≠ "" ∧
    (runConvert ((NewQuery "Person").Filter "" .null emptyDSState).1
        ((NewQuery "Person").Filter "" .null emptyDSState).2
        (NewQueryOptions (-1) 0)).2 =
      some [some (DSError.invalidQueryFilter ""), some (DSError.negativeValue "limit")] :=
  ⟨by decide, C3_two_errors_accumulated "Person" (by decide)⟩

/-- C4: the code evaluated at the failing input.  qa = q.Filter "fa =" 4
    and qb = q.Filter "fb =" 5 are built from the same three-filter
    query q, whose backing array has spare capacity; qa's filter list
    initially ends with ("fa =", 4), but after the second builder call
    on q it ends with ("fb =", 5): the second append wrote through the
    shared backing array, observably mutating the previously returned
    qa, contrary to the claimed (and documented) immutability. -/
theorem C4_builder_aliasing_evaluation :
    Query.filters c4A.1 c4A.2 =
      [⟨"a =", .int 1⟩, ⟨"b =", .int 2⟩, ⟨"c =", .int 3⟩, ⟨"fa =", .int 4⟩] ∧
    Query.filters c4A.1 c4B.2 =
      [⟨"a =", .int 1⟩, ⟨"b =", .int 2⟩, ⟨"c =", .int 3⟩, ⟨"fb =", .int 5⟩] ∧
    Query.filters c4A.1 c4B.2 ≠
      [⟨"a =", .int 1⟩, ⟨"b =", .int 2⟩, ⟨"c =", .int 3⟩, ⟨"fa =", .int 4⟩] := by
  decide

/-- C5 counterexample: the display string of the Person/age query is not
    the claimed "SELECT * FROM Person WHERE age>=18 ORDER BY age DESC":
    the raw filter expression keeps its interior space. -/
theorem C5_display_spacing_counterexample :
    Query.displayString q5.1 q5.2 ≠
      "SELECT * FROM Person WHERE age>=18 ORDER BY age DESC" := by
  decide

/-- C5 amended: the Person/age query converts without error to a wire
    query with exactly one filter using GREATER_THAN_OR_EQUAL on
    property "age" with value 18 and exactly one DESCENDING order on
    property "age", and its display string is exactly
    "SELECT * FROM Person WHERE age >=18 ORDER BY age DESC". -/
theorem C5_person_query_wire_and_display :
    (q5.1.toProto q5.2 emptyPbQuery).2 = none ∧
    (q5.1.toProto q5.2 emptyPbQuery).1.filter =
      some [⟨some QFilterOp.GREATER_THAN_OR_EQUAL, [⟨"age", QVal.int 18⟩]⟩] ∧
    (q5.1.toProto q5.2 emptyPbQuery).1.order =
      some [⟨some "age", some QOrderDir.DESCENDING⟩] ∧
    Query.displayString q5.1 q5.2 =
      "SELECT * FROM Person WHERE age >=18 ORDER BY age DESC" := by
  decide

theorem C2_full_conversion_or_enumerated_errors_witness :
    [some (DSError.invalidQueryFilter "")] = qEmptyFilter.1.faults qEmptyFilter.2 ∧
    ([some (DSError.invalidQueryFilter "")] : List (Option DSError)) ≠ [] :=
  (C2_full_conversion_or_enumerated_errors qEmptyFilter.1 qEmptyFilter.2).2.1
    [some (DSError.invalidQueryFilter "")] (by decide)
